import Mathlib

/-!
# Verification of the go-nntp client (`client/client.go`)

A shallow embedding of the NNTP client in `src/client/client.go`.  Pure
parsing logic is translated function by function; interaction with the
wire is modelled by passing the server's status line and dot-terminated
block contents as explicit arguments.  Go slice indexing that can go out
of range is modelled with `List.get?`; a `none` result is a runtime panic
(`GoResult.panic`); a non-nil Go `error` is `GoResult.err`.
-/

namespace GoNNTP

/-- Outcome of a Go function returning `(value, err)` that may also panic:
`ok v` is `(v, nil)`, `err e` is a non-nil error with message `e`, and
`panic` is a runtime panic (index out of range). -/
inductive GoResult (α : Type) where
  | ok : α → GoResult α
  | err : String → GoResult α
  | panic : GoResult α
deriving Repr, DecidableEq

/-- `true` exactly when the Go call returned a nil error (and did not panic). -/
def GoResult.isOk {α : Type} : GoResult α → Bool
  | .ok _ => true
  | _ => false

/-- The value carried by an `ok` result, with a default otherwise. -/
def GoResult.okD {α : Type} (r : GoResult α) (d : α) : α :=
  match r with
  | .ok v => v
  | _ => d

/-! ## Go string primitives (`strings`, `strconv`, `net/textproto`) -/

/-- `strings.Split` around a single-character separator, on the character
list of the string.  Matches Go: splitting the empty string yields `[[]]`,
and adjacent separators yield empty fields. -/
def splitChar (sep : Char) : List Char → List (List Char)
  | [] => [[]]
  | c :: cs =>
    let r := splitChar sep cs
    if c = sep then [] :: r
    else
      match r with
      | [] => [[c]]
      | x :: xs => (c :: x) :: xs

/-- `strings.Split(s, sep)` for a one-character separator `sep`. -/
def goSplit (s : String) (sep : Char) : List String :=
  (splitChar sep s.data).map (fun cs => String.mk cs)

/-- Rejoin character chunks with the separator between them. -/
def joinWith (sep : Char) : List (List Char) → List Char
  | [] => []
  | [x] => x
  | x :: xs => x ++ sep :: joinWith sep xs

/-- `strings.SplitN(s, sep, 2)` for a one-character separator: at most two
parts, the second keeping any further separators. -/
def goSplitN2 (s : String) (sep : Char) : List String :=
  match splitChar sep s.data with
  | [] => [s]
  | [x] => [String.mk x]
  | x :: rest => [String.mk x, String.mk (joinWith sep rest)]

/-- Decimal digit accumulation for `strconv.ParseInt`; `none` once a
non-digit character is met. -/
def parseDigitsAux : List Char → Nat → Option Nat
  | [], acc => some acc
  | c :: cs, acc =>
    if c.isDigit then parseDigitsAux cs (acc * 10 + (c.toNat - 48)) else none

/-- A non-empty all-digit string read as a natural number. -/
def parseDigits : List Char → Option Nat
  | [] => none
  | cs => parseDigitsAux cs 0

/-- Largest value of Go's `int64`. -/
def int64Max : Int := 2 ^ 63 - 1

/-- `strconv.ParseInt(s, 10, 64)`: optional sign, at least one decimal
digit, result within the `int64` range.  `none` models a non-nil Go error
(syntax or range). -/
def parseInt64 (s : String) : Option Int :=
  match s.data with
  | '+' :: rest =>
    (parseDigits rest).bind fun n =>
      if (n : Int) ≤ int64Max then some (n : Int) else none
  | '-' :: rest =>
    (parseDigits rest).bind fun n =>
      if (n : Int) ≤ int64Max + 1 then some (-(n : Int)) else none
  | cs =>
    (parseDigits cs).bind fun n =>
      if (n : Int) ≤ int64Max then some (n : Int) else none

/-- A parsed NNTP status line: 3-digit code and trailing message text. -/
structure StatusLine where
  code : Nat
  text : String
deriving Repr, DecidableEq

/-- The expect-code check of `net/textproto.ReadCodeLine`: the response
code must share its leading digits with the expectation (`200` matches
only 200, `2` matches 200–299, `0` disables the check). -/
def codeOK (expect code : Nat) : Bool :=
  if expect = 0 then true
  else if expect < 10 then code / 100 == expect
  else if expect < 100 then code / 10 == expect
  else if expect < 1000 then code == expect
  else true

/-! ## Domain records

Modelled from the spec: the domain value objects live in the parent
`nntp` package, which is not under `src/`; the spec describes them as
simple immutable records with no behavior. -/

/-- Modelled from the spec: posting permission is one of
{Permitted, Moderated, NotPermitted}, decoded from a single-character
server code.  `unknown` is the record's zero value, present because the
`GROUP` handler never assigns the field. -/
inductive PostingStatus where
  | unknown
  | permitted
  | notPermitted
  | moderated
deriving Repr, DecidableEq

/-- Modelled from the spec: the GroupDescriptor immutable record
{name, estimated article count, low watermark, high watermark, posting
permission} (`nntp.Group`). -/
structure Group where
  name : String
  count : Int
  low : Int
  high : Int
  posting : PostingStatus
deriving Repr, DecidableEq

/-- `parsePosting` (client.go:64–72): `"y"` permitted, `"m"` moderated,
anything else not permitted. -/
def parsePosting (p : String) : PostingStatus :=
  if p = "y" then .permitted
  else if p = "m" then .moderated
  else .notPermitted

/-! ## Session establishment (`New`, client.go:24–38) -/

/-- `New` (client.go:24–38) after the dial step: `none` is a transport
failure (dial or read error), `some g` the parsed greeting line.  The
greeting is read with `ReadCodeLine(200)`; on success the message text is
stored as the `Banner`.  The error value keeps the offending status line
(`textproto.Error` carries code and message). -/
def New (dial : Option StatusLine) : Except (Option StatusLine) String :=
  match dial with
  | none => .error none
  | some g => if codeOK 200 g.code then .ok g.text else .error (some g)

/-! ## LIST (client.go:76–101) -/

/-- The body of the `for _, l := range groupLines` loop of `List`
(client.go:87–98) on one line, threading the accumulated slice `rv`.
Go evaluation order: `parts[1]` and `parts[2]` are indexed before the
parses are examined, and `parts[0]`/`parts[3]` only inside the composite
literal, which is reached when both parses succeeded. -/
def listParseLine (rv : List Group) (l : String) : GoResult (List Group) :=
  let parts := goSplit l ' '
  match parts[1]? with
  | none => .panic
  | some p1 =>
    match parts[2]? with
    | none => .panic
    | some p2 =>
      match parseInt64 p1, parseInt64 p2 with
      | some high, some low =>
        match parts[0]? with
        | none => .panic
        | some p0 =>
          match parts[3]? with
          | none => .panic
          | some p3 => .ok (rv ++ [⟨p0, 0, low, high, parsePosting p3⟩])
      | _, _ => .ok rv

/-- The whole parsing loop of `List` over the dot-terminated block. -/
def listParseLines (rv : List Group) : List String → GoResult (List Group)
  | [] => .ok rv
  | l :: ls =>
    match listParseLine rv l with
    | .ok rv2 => listParseLines rv2 ls
    | .err e => .err e
    | .panic => .panic

/-- `List` (client.go:76–101) given the server's status line for
`LIST <sub>` and the dot-terminated block that follows. -/
def ListCmd (resp : StatusLine) (blockLines : List String) : GoResult (List Group) :=
  if codeOK 215 resp.code then listParseLines [] blockLines
  else .err "unexpected status"

/-! ## GROUP (client.go:104–130) -/

/-- The body of `Group` (client.go:104–130) after
`Command("GROUP "+name, 211)` returned message `msg`.  Faithful to the
source: when the split does not have exactly 4 fields an error is
assigned to `err` but NOT returned, so the very next
`rv.Count, err = strconv.ParseInt(parts[0], ...)` overwrites it. -/
def groupParse (msg : String) : GoResult Group :=
  let parts := goSplit msg ' '
  -- if len(parts) != 4 { err = errors.New("Don't know how to parse result: " + msg) }
  -- (dead: no return, err is reassigned below)
  match parts[0]? with
  | none => .panic
  | some p0 =>
    match parseInt64 p0 with
    | none => .err ("invalid count: " ++ p0)
    | some count =>
      match parts[1]? with
      | none => .panic
      | some p1 =>
        match parseInt64 p1 with
        | none => .err ("invalid low: " ++ p1)
        | some low =>
          match parts[2]? with
          | none => .panic
          | some p2 =>
            match parseInt64 p2 with
            | none => .err ("invalid high: " ++ p2)
            | some high =>
              match parts[3]? with
              | none => .panic
              | some p3 => .ok ⟨p3, count, low, high, .unknown⟩

/-- `Group` (client.go:104–130) given the server's status line for
`GROUP <name>`. -/
def GroupCmd (resp : StatusLine) : GoResult Group :=
  if codeOK 211 resp.code then groupParse resp.text
  else .err "unexpected status"

/-! ## ARTICLE / HEAD / BODY (client.go:133–170) -/

/-- `articleish` (client.go:159–170) after `ReadCodeLine(expected)`
succeeded with message `msg`: `SplitN(msg, " ", 2)`, parse the first part
as an article number, return it with the rest.  `parts[1]` is indexed
unconditionally after a successful parse. -/
def articleish (msg : String) : GoResult (Int × String) :=
  let parts := goSplitN2 msg ' '
  match parts[0]? with
  | none => .panic
  | some p0 =>
    match parseInt64 p0 with
    | none => .err ("invalid article number: " ++ p0)
    | some n =>
      match parts[1]? with
      | none => .panic
      | some rest => .ok (n, rest)

/-- `Article`/`Head`/`Body` share `articleish` behind an expected status
code; the status line for the verb is the argument. -/
def articleCmd (expected : Nat) (resp : StatusLine) : GoResult (Int × String) :=
  if codeOK expected resp.code then articleish resp.text
  else .err "unexpected status"

/-- `Article` (client.go:133–139): expects 220. -/
def Article (resp : StatusLine) : GoResult (Int × String) := articleCmd 220 resp

/-- `Head` (client.go:142–148): expects 221. -/
def Head (resp : StatusLine) : GoResult (Int × String) := articleCmd 221 resp

/-- `Body` (client.go:151–157): expects 222. -/
def Body (resp : StatusLine) : GoResult (Int × String) := articleCmd 222 resp

/-! ## XOVER / XZVER (client.go:177–246) -/

/-- `MultilineCommand` (client.go:288–300): the returned line list starts
with the status-line message, followed by the dot-terminated block. -/
def multilineLines (statusMsg : String) (dotLines : List String) : List String :=
  statusMsg :: dotLines

/-- The `for _, l := range lines[1:]` loop of `XOver` (client.go:192–198)
with the accumulated `headers` slice and `headerFull` map entries.
`strings.SplitN(l, ":", 2)` is indexed at 1 unconditionally. -/
def negotiateGo : List String → List String → List (String × Bool) →
    GoResult (List String × List (String × Bool))
  | [], headers, hf => .ok (headers, hf)
  | l :: ls, headers, hf =>
    let parts := goSplitN2 l ':'
    match parts[0]? with
    | none => .panic
    | some h =>
      match parts[1]? with
      | none => .panic
      | some f => negotiateGo ls (headers ++ [h]) (hf ++ [(h, f == "full")])

/-- Format negotiation of `XOver` (client.go:184–198): start from
`headers := ["Article"]`, skip `lines[0]`, one column per remaining
line. -/
def negotiateColumns (lines : List String) :
    GoResult (List String × List (String × Bool)) :=
  negotiateGo (lines.drop 1) ["Article"] []

/-- Go map read `headerFull[h]`: the last write wins, absence reads the
zero value `false`. -/
def mapLookup (m : List (String × Bool)) (k : String) : Bool :=
  match (m.reverse.find? (fun p => p.1 = k)) with
  | some p => p.2
  | none => false

/-- `net/textproto` header-field byte validity (token characters). -/
def validHeaderFieldChar (c : Char) : Bool :=
  let n := c.toNat
  (decide (48 ≤ n) && decide (n ≤ 57)) ||
  (decide (65 ≤ n) && decide (n ≤ 90)) ||
  (decide (97 ≤ n) && decide (n ≤ 122)) ||
  (n == 33) || (decide (35 ≤ n) && decide (n ≤ 39)) ||
  (n == 42) || (n == 43) || (n == 45) || (n == 46) ||
  (n == 94) || (n == 95) || (n == 96) || (n == 124) || (n == 126)

/-- One step of MIME-header canonicalization: uppercase at the start of a
word, lowercase elsewhere. -/
def canonChar (upper : Bool) (c : Char) : Char :=
  if upper && (decide (97 ≤ c.toNat) && decide (c.toNat ≤ 122)) then
    Char.ofNat (c.toNat - 32)
  else if !upper && (decide (65 ≤ c.toNat) && decide (c.toNat ≤ 90)) then
    Char.ofNat (c.toNat + 32)
  else c

/-- The canonicalization loop: a letter is upper-cased exactly after the
start or a `-`. -/
def canonAux : Bool → List Char → List Char
  | _, [] => []
  | upper, c :: cs => canonChar upper c :: canonAux (c = '-') cs

/-- `textproto.CanonicalMIMEHeaderKey`: canonicalize word casing, or
return the key unchanged if it holds an invalid header-field byte. -/
def canonicalMIMEHeaderKey (s : String) : String :=
  if s.data.all validHeaderFieldChar then String.mk (canonAux true s.data)
  else s

/-- `textproto.MIMEHeader.Set`: replace any binding of the canonicalized
key, else append it.  The header map is an association list; the spec
declares insertion order irrelevant. -/
def mimeSet (m : List (String × String)) (k v : String) : List (String × String) :=
  let ck := canonicalMIMEHeaderKey k
  if m.any (fun p => p.1 = ck) then
    m.map (fun p => if p.1 = ck then (ck, v) else p)
  else m ++ [(ck, v)]

/-- The `for i, val := range strings.Split(l, "\t")` loop of the `XOver`
goroutine (client.go:230–238): `headers[i]` is indexed for every field,
and for a `full` column `SplitN(val, ":", 2)` is indexed at 1. -/
def decodeFields (headers : List String) (hf : List (String × Bool)) :
    List String → Nat → List (String × String) → GoResult (List (String × String))
  | [], _, m => .ok m
  | val :: vs, i, m =>
    match headers[i]? with
    | none => .panic
    | some h =>
      if mapLookup hf h then
        match (goSplitN2 val ':')[1]? with
        | none => .panic
        | some v => decodeFields headers hf vs (i + 1) (mimeSet m h v)
      else decodeFields headers hf vs (i + 1) (mimeSet m h val)

/-- Decoding of one overview line into a header record
(client.go:228–241). -/
def decodeLine (headers : List String) (hf : List (String × Bool))
    (l : String) : GoResult (List (String × String)) :=
  decodeFields headers hf (goSplit l '\t') 0 []

/-- The record stream produced by the `XOver` goroutine over the block
lines: records are sent on the channel one line at a time, in order; a
panic while decoding a line kills the goroutine, so the stream ends there
(`true` flags the abort), but records already delivered stand. -/
def xoverStream (headers : List String) (hf : List (String × Bool)) :
    List String → List (List (String × String)) × Bool
  | [] => ([], false)
  | l :: ls =>
    match decodeLine headers hf l with
    | .ok r =>
      let rest := xoverStream headers hf ls
      (r :: rest.1, rest.2)
    | _ => ([], true)

/-! ## POST (client.go:253–271) -/

/-- The responses and write outcome a `Post` call can meet: the status
line answering `POST`, the outcome of copying the body into the dot
writer (`none` = success), and the status line after the terminator. -/
structure PostEnv where
  postResp : StatusLine
  copyErr : Option String
  finalResp : StatusLine
deriving Repr, DecidableEq

/-- What a `Post` call did: whether the dot-block body write was started,
whether the final status line was read, and the returned error. -/
structure PostTrace where
  bodyWritten : Bool
  finalRead : Bool
  result : Option String
deriving Repr, DecidableEq

/-- `Post` (client.go:253–271): `ReadCodeLine(340)` must succeed before
the `DotWriter` is opened; a copy error returns at once, before the
final read; otherwise the terminator is flushed by `Close` and
`ReadCodeLine(240)` is the last exchange. -/
def Post (env : PostEnv) : PostTrace :=
  if codeOK 340 env.postResp.code then
    match env.copyErr with
    | some e => ⟨true, false, some e⟩
    | none =>
      if codeOK 240 env.finalResp.code then ⟨true, true, none⟩
      else ⟨true, true, some "unexpected status"⟩
  else ⟨false, false, some "unexpected status to POST"⟩

/-! ## Statement vocabulary -/

/-- The column a `LIST OVERVIEW.FMT` line defines: the text before the
first `:` names it, and it is `full` exactly when the text after the
first `:` is `"full"`.  (The degenerate branches are unreachable for
lines the code accepts.) -/
def colOf (l : String) : String × Bool :=
  match goSplitN2 l ':' with
  | h :: f :: _ => (h, f == "full")
  | [h] => (h, false)
  | [] => ("", false)

/-- The column list as the specification describes the negotiation: the
first line of the dot block is discarded as a header marker and each
remaining block line contributes a column, after the implicit
`"Article"`. -/
def claimedColumns (blockLines : List String) : List String :=
  "Article" :: (blockLines.drop 1).map (fun l => (colOf l).1)

/-- The group a well-formed (≥ 4 fields) `LIST` line contributes:
`none` when the high or low watermark fails to parse. -/
def lineGroup? (l : String) : Option Group :=
  let parts := goSplit l ' '
  match parseInt64 (parts.getD 1 ""), parseInt64 (parts.getD 2 "") with
  | some high, some low =>
    some ⟨parts.getD 0 "", 0, low, high, parsePosting (parts.getD 3 "")⟩
  | _, _ => none

/-! ## Helper lemmas on the string primitives -/

theorem splitChar_ne_nil (sep : Char) (cs : List Char) : splitChar sep cs ≠ [] := by
  cases cs with
  | nil => simp [splitChar]
  | cons c cs =>
    simp only [splitChar]
    split
    · simp
    · split <;> simp

theorem splitChar_no_sep (sep : Char) (cs : List Char) (h : sep ∉ cs) :
    splitChar sep cs = [cs] := by
  induction cs with
  | nil => rfl
  | cons c cs ih =>
    have hc : ¬ c = sep := fun hc => h (hc ▸ List.mem_cons_self c cs)
    have hcs : sep ∉ cs := fun hm => h (List.mem_cons_of_mem c hm)
    simp only [splitChar, if_neg hc, ih hcs]

theorem splitChar_append_sep (sep : Char) (a b : List Char) (ha : sep ∉ a) :
    splitChar sep (a ++ sep :: b) = a :: splitChar sep b := by
  induction a with
  | nil => simp [splitChar]
  | cons c a ih =>
    have hc : ¬ c = sep := fun hc => ha (hc ▸ List.mem_cons_self c a)
    have has : sep ∉ a := fun hm => ha (List.mem_cons_of_mem c hm)
    have ih' := ih has
    show splitChar sep (c :: (a ++ sep :: b)) = (c :: a) :: splitChar sep b
    rw [splitChar, ih', if_neg hc]

theorem joinWith_splitChar (sep : Char) (cs : List Char) :
    joinWith sep (splitChar sep cs) = cs := by
  induction cs with
  | nil => rfl
  | cons c cs ih =>
    simp only [splitChar]
    by_cases hc : c = sep
    · subst hc
      rw [if_pos rfl]
      cases hr : splitChar c cs with
      | nil => exact absurd hr (splitChar_ne_nil c cs)
      | cons x xs =>
        rw [hr] at ih
        simp only [joinWith, List.nil_append]
        cases xs with
        | nil => simp only [joinWith] at ih ⊢; rw [ih]
        | cons y ys => simp only [joinWith] at ih ⊢; rw [ih]
    · rw [if_neg hc]
      cases hr : splitChar sep cs with
      | nil => exact absurd hr (splitChar_ne_nil sep cs)
      | cons x xs =>
        rw [hr] at ih
        cases xs with
        | nil => simp only [joinWith] at ih ⊢; rw [ih]
        | cons y ys =>
          simp only [joinWith, List.cons_append] at ih ⊢
          rw [ih]

theorem string_mk_data (s : String) : String.mk s.data = s := rfl

theorem string_data_append (a b : String) : (a ++ b).data = a.data ++ b.data := by
  cases a; cases b; rfl

theorem goSplitN2_no_sep (s : String) (sep : Char) (h : sep ∉ s.data) :
    goSplitN2 s sep = [s] := by
  simp only [goSplitN2, splitChar_no_sep sep s.data h, string_mk_data]

theorem goSplitN2_sep_append (a b : String) (sep : Char) (ha : sep ∉ a.data) :
    goSplitN2 (a ++ String.mk [sep] ++ b) sep = [a, b] := by
  have hdata : (a ++ String.mk [sep] ++ b).data = a.data ++ sep :: b.data := by
    cases a; cases b; simp [List.append_assoc, String.data]
  simp only [goSplitN2, hdata, splitChar_append_sep sep a.data b.data ha]
  cases hr : splitChar sep b.data with
  | nil => exact absurd hr (splitChar_ne_nil sep b.data)
  | cons x xs =>
    have : joinWith sep (x :: xs) = b.data := by
      rw [← hr]; exact joinWith_splitChar sep b.data
    simp only [this, string_mk_data]

theorem codeOK_215 (c : Nat) : codeOK 215 c = (c == 215) := by
  simp [codeOK]

theorem codeOK_200 (c : Nat) : codeOK 200 c = (c == 200) := by
  simp [codeOK]

theorem codeOK_340 (c : Nat) : codeOK 340 c = (c == 340) := by
  simp [codeOK]

/-! ## Claims -/

/-- C1: the `GROUP` parser's missing `return`.  When the 211 message does
not split into exactly 4 fields, `Group` constructs the
"Don't know how to parse result" error but never returns it; the next
`ParseInt` assignment overwrites `err`, so a 5-field message whose first
three fields parse yields a fully populated descriptor and a nil error,
contradicting the claim.  A well-formed 4-field message still round-trips
as claimed. -/
theorem groupParse_error_overwritten :
    groupParse "1 2 3 4 5" = .ok ⟨"4", 1, 2, 3, .unknown⟩ ∧
    groupParse "3 1 5 misc.test" = .ok ⟨"misc.test", 3, 1, 5, .unknown⟩ :=
  ⟨rfl, rfl⟩

/-- C2 counterexample: a class-2 greeting with code 201 (posting
prohibited) is rejected by `New`, which demands exactly 200, so the
claimed acceptance of any class-2 greeting fails at 201. -/
theorem New_rejects_201 :
    New (some ⟨201, "ready"⟩) = Except.error (some ⟨201, "ready"⟩) ∧
    New (some ⟨201, "ready"⟩) ≠ Except.ok "ready" := by
  refine ⟨rfl, fun h => ?_⟩
  rw [show New (some ⟨201, "ready"⟩) = Except.error (some ⟨201, "ready"⟩) from rfl] at h
  exact Except.noConfusion h

/-- C2 amended: `New` succeeds exactly when the greeting status code is
200 — 201 is rejected — in which case the greeting text becomes the
banner; a transport failure is an error. -/
theorem New_banner_iff_200 :
    (∀ g : StatusLine, New (some g) = Except.ok g.text ↔ g.code = 200) ∧
    New none = Except.error none := by
  refine ⟨fun g => ?_, rfl⟩
  simp only [New, codeOK_200]
  by_cases h : g.code = 200
  · simp [h]
  · simp [h]

/-- C2 witness: a 200 greeting is accepted and its text stored. -/
theorem New_banner_iff_200_witness :
    New (some ⟨200, "news.example NNRP ready"⟩) =
      Except.ok "news.example NNRP ready" :=
  (New_banner_iff_200.1 ⟨200, "news.example NNRP ready"⟩).2 rfl

/-- C5 counterexample: a status message that is a bare parseable article
number with no following space cannot be split into two space-separated
parts; the claim says this yields a `ProtocolError`, but `articleish`
parses `parts[0]` successfully and then indexes `parts[1]` out of range —
a panic, for each of `Article`, `Head` and `Body`. -/
theorem article_bare_number_panics :
    Article ⟨220, "123"⟩ = .panic ∧ Head ⟨221, "123"⟩ = .panic ∧
    Body ⟨222, "123"⟩ = .panic :=
  ⟨rfl, rfl, rfl⟩

/-- C5 amended: after a status line matching the expected code, the
status message is split once on a space; a first part that fails integer
parsing is an ordinary error, and a well-formed `<number> <rest>` message
returns the parsed pair — but a message with no space whose whole text
parses as an integer panics instead of returning a `ProtocolError`. -/
theorem articleish_amended :
    (∀ (a b : String) (n : Int), ' ' ∉ a.data → parseInt64 a = some n →
        articleish (a ++ " " ++ b) = .ok (n, b)) ∧
    (∀ a b : String, ' ' ∉ a.data → parseInt64 a = none →
        articleish (a ++ " " ++ b) = .err ("invalid article number: " ++ a)) ∧
    (∀ (a : String) (n : Int), ' ' ∉ a.data → parseInt64 a = some n →
        articleish a = .panic) ∧
    (∀ a : String, ' ' ∉ a.data → parseInt64 a = none →
        articleish a = .err ("invalid article number: " ++ a)) ∧
    (∀ resp : StatusLine, codeOK 220 resp.code = true → Article resp = articleish resp.text) ∧
    (∀ resp : StatusLine, codeOK 221 resp.code = true → Head resp = articleish resp.text) ∧
    (∀ resp : StatusLine, codeOK 222 resp.code = true → Body resp = articleish resp.text) := by
  have hmk : (" " : String) = String.mk [' '] := rfl
  refine ⟨?_, ?_, ?_, ?_, ?_, ?_, ?_⟩
  · intro a b n ha hp
    have hsplit : goSplitN2 (a ++ " " ++ b) ' ' = [a, b] := by
      rw [hmk]; exact goSplitN2_sep_append a b ' ' ha
    simp [articleish, hsplit, hp]
  · intro a b ha hp
    have hsplit : goSplitN2 (a ++ " " ++ b) ' ' = [a, b] := by
      rw [hmk]; exact goSplitN2_sep_append a b ' ' ha
    simp [articleish, hsplit, hp]
  · intro a n ha hp
    have hsplit : goSplitN2 a ' ' = [a] := goSplitN2_no_sep a ' ' ha
    simp [articleish, hsplit, hp]
  · intro a ha hp
    have hsplit : goSplitN2 a ' ' = [a] := goSplitN2_no_sep a ' ' ha
    simp [articleish, hsplit, hp]
  · intro resp h; simp [Article, articleCmd, h]
  · intro resp h; simp [Head, articleCmd, h]
  · intro resp h; simp [Body, articleCmd, h]

/-- C5 witness: concrete instances of every case of the amended claim. -/
theorem articleish_amended_witness :
    articleish ("123" ++ " " ++ "<id@example>") = .ok (123, "<id@example>") ∧
    articleish ("abc" ++ " " ++ "x") = .err ("invalid article number: " ++ "abc") ∧
    articleish "123" = .panic ∧
    articleish "abc" = .err ("invalid article number: " ++ "abc") ∧
    Article ⟨220, "1 a"⟩ = articleish "1 a" ∧
    Head ⟨221, "1 a"⟩ = articleish "1 a" ∧
    Body ⟨222, "1 a"⟩ = articleish "1 a" :=
  ⟨articleish_amended.1 "123" "<id@example>" 123 (by decide) rfl,
   articleish_amended.2.1 "abc" "x" (by decide) rfl,
   articleish_amended.2.2.1 "123" 123 (by decide) rfl,
   articleish_amended.2.2.2.1 "abc" (by decide) rfl,
   articleish_amended.2.2.2.2.1 ⟨220, "1 a"⟩ (by decide),
   articleish_amended.2.2.2.2.2.1 ⟨221, "1 a"⟩ (by decide),
   articleish_amended.2.2.2.2.2.2 ⟨222, "1 a"⟩ (by decide)⟩

/-- C7: `Post` opens the dot writer only after `ReadCodeLine(340)`
succeeded, so a 440 (or any non-340) answer writes no body bytes; a copy
failure returns that error at once, before the final status read; and
when the copy succeeds the 240 status read is the last exchange, deciding
success. -/
theorem Post_behavior :
    (∀ env : PostEnv, codeOK 340 env.postResp.code = false →
        Post env = ⟨false, false, some "unexpected status to POST"⟩) ∧
    (∀ (env : PostEnv) (e : String), codeOK 340 env.postResp.code = true →
        env.copyErr = some e → Post env = ⟨true, false, some e⟩) ∧
    (∀ env : PostEnv, codeOK 340 env.postResp.code = true → env.copyErr = none →
        (Post env).bodyWritten = true ∧ (Post env).finalRead = true ∧
        ((Post env).result = none ↔ codeOK 240 env.finalResp.code = true)) := by
  refine ⟨?_, ?_, ?_⟩
  · intro env h; simp [Post, h]
  · intro env e h hc; simp [Post, h, hc]
  · intro env h hc
    by_cases h240 : codeOK 240 env.finalResp.code = true
    · simp [Post, h, hc, h240]
    · simp [Post, h, hc, h240]

/-- C7 witness: a 440 refusal writes nothing; a mid-stream copy failure
skips the final read; a clean run ends on the 240 read. -/
theorem Post_behavior_witness :
    Post ⟨⟨440, "posting not allowed"⟩, none, ⟨240, "ok"⟩⟩ =
      ⟨false, false, some "unexpected status to POST"⟩ ∧
    Post ⟨⟨340, "send it"⟩, some "broken pipe", ⟨240, "ok"⟩⟩ =
      ⟨true, false, some "broken pipe"⟩ ∧
    ((Post ⟨⟨340, "send it"⟩, none, ⟨240, "article received"⟩⟩).bodyWritten = true ∧
      (Post ⟨⟨340, "send it"⟩, none, ⟨240, "article received"⟩⟩).finalRead = true ∧
      ((Post ⟨⟨340, "send it"⟩, none, ⟨240, "article received"⟩⟩).result = none ↔
        codeOK 240 240 = true)) :=
  ⟨Post_behavior.1 ⟨⟨440, "posting not allowed"⟩, none, ⟨240, "ok"⟩⟩ (by decide),
   Post_behavior.2.1 ⟨⟨340, "send it"⟩, some "broken pipe", ⟨240, "ok"⟩⟩ "broken pipe"
     (by decide) rfl,
   Post_behavior.2.2 ⟨⟨340, "send it"⟩, none, ⟨240, "article received"⟩⟩ (by decide) rfl⟩

/-- The negotiation loop on an all-well-formed tail: one column per line,
in order, appended to the accumulators. -/
theorem negotiateGo_ok :
    ∀ (bl hs : List String) (acc : List (String × Bool)),
    (∀ l ∈ bl, (goSplitN2 l ':').length = 2) →
    negotiateGo bl hs acc =
      .ok (hs ++ bl.map (fun l => (colOf l).1), acc ++ bl.map colOf) := by
  intro bl
  induction bl with
  | nil => intro hs acc _; simp [negotiateGo]
  | cons l ls ih =>
    intro hs acc h
    obtain ⟨x, y, hxy⟩ := List.length_eq_two.mp (h l (List.mem_cons_self l ls))
    have hcol : colOf l = (x, y == "full") := by simp [colOf, hxy]
    simp only [negotiateGo, hxy, List.getElem?_cons_zero, List.getElem?_cons_succ]
    rw [ih (hs ++ [x]) (acc ++ [(x, y == "full")])
      (fun l' hm => h l' (List.mem_cons_of_mem l hm))]
    simp [hcol, List.append_assoc]

/-- The negotiation loop panics when some line has no colon: the two-way
split of that line has a single part and `parts[1]` is out of range. -/
theorem negotiateGo_panic :
    ∀ (bl hs : List String) (acc : List (String × Bool)),
    (∃ l ∈ bl, ':' ∉ l.data) →
    negotiateGo bl hs acc = .panic := by
  intro bl
  induction bl with
  | nil => rintro hs acc ⟨l, hm, _⟩; exact absurd hm (List.not_mem_nil l)
  | cons l ls ih =>
    rintro hs acc ⟨l', hm, hl'⟩
    rcases List.mem_cons.mp hm with rfl | hm'
    · simp [negotiateGo, goSplitN2_no_sep l' ':' hl']
    · cases hsp : goSplitN2 l ':' with
      | nil => simp [negotiateGo, hsp]
      | cons x xs =>
        cases xs with
        | nil => simp [negotiateGo, hsp]
        | cons y ys =>
          simp only [negotiateGo, hsp, List.getElem?_cons_zero, List.getElem?_cons_succ]
          exact ih _ _ ⟨l', hm', hl'⟩

/-- C3 counterexample: what the negotiation discards is the status-line
message that `MultilineCommand` prepends, not the first line of the dot
block.  With a one-line block `"Subject:full"` the claim predicts the
column list `["Article"]`, but the code negotiates
`["Article", "Subject"]`. -/
theorem negotiate_keeps_first_block_line :
    negotiateColumns
        (multilineLines "Order of fields in overview database." ["Subject:full"]) =
      .ok (["Article", "Subject"], [("Subject", true)]) ∧
    claimedColumns ["Subject:full"] = ["Article"] ∧
    (["Article", "Subject"] : List String) ≠ ["Article"] :=
  ⟨rfl, rfl, by decide⟩

/-- C3 amended: after `LIST OVERVIEW.FMT` returns 215, the line the code
skips is the status message itself (index 0 of `MultilineCommand`'s
list); every line of the dot block then defines one `name:flag` column,
and the negotiated column list is exactly `"Article"` prepended to those
block columns, in server order. -/
theorem negotiate_amended (msg : String) (bl : List String)
    (h : ∀ l ∈ bl, (goSplitN2 l ':').length = 2) :
    negotiateColumns (multilineLines msg bl) =
      .ok ("Article" :: bl.map (fun l => (colOf l).1), bl.map colOf) := by
  simpa [negotiateColumns, multilineLines] using negotiateGo_ok bl ["Article"] [] h

/-- C3 witness: a two-line block negotiates both columns after the
implicit `Article`. -/
theorem negotiate_amended_witness :
    negotiateColumns (multilineLines "Order of fields in overview database."
        ["Subject:full", "From:"]) =
      .ok (["Article", "Subject", "From"], [("Subject", true), ("From", false)]) := by
  simpa using negotiate_amended "Order of fields in overview database."
    ["Subject:full", "From:"] (by decide)

/-- C10: a `LIST OVERVIEW.FMT` response in which some line after the
first has no `:` separator makes `XOver` index past the end of the
two-way split — a panic, not an error return — and a negotiated column
is flagged full exactly when the text after the first colon is the
string `"full"`. -/
theorem overviewFmt_colon_behavior :
    (∀ (first : String) (rest : List String), (∃ l ∈ rest, ':' ∉ l.data) →
        negotiateColumns (first :: rest) = .panic) ∧
    (∀ (msg : String) (bl : List String),
        (∀ l ∈ bl, (goSplitN2 l ':').length = 2) →
        negotiateColumns (multilineLines msg bl) =
          .ok ("Article" :: bl.map (fun l => (goSplitN2 l ':').headD ""),
            bl.map (fun l => ((goSplitN2 l ':').headD "",
              ((goSplitN2 l ':').getD 1 "") == "full")))) ∧
    (∀ flag : String, ((flag == "full") = true ↔ flag = "full")) := by
  refine ⟨?_, ?_, fun flag => by simp⟩
  · intro first rest h
    simpa [negotiateColumns] using negotiateGo_panic rest ["Article"] [] h
  · intro msg bl h
    have hmap1 : bl.map (fun l => (colOf l).1) =
        bl.map (fun l => (goSplitN2 l ':').headD "") := by
      refine List.map_congr_left (fun l hm => ?_)
      obtain ⟨x, y, hxy⟩ := List.length_eq_two.mp (h l hm)
      simp [colOf, hxy]
    have hmap2 : bl.map colOf =
        bl.map (fun l => ((goSplitN2 l ':').headD "",
          ((goSplitN2 l ':').getD 1 "") == "full")) := by
      refine List.map_congr_left (fun l hm => ?_)
      obtain ⟨x, y, hxy⟩ := List.length_eq_two.mp (h l hm)
      simp [colOf, hxy]
    have := negotiateGo_ok bl ["Article"] [] h
    rw [hmap1, hmap2] at this
    simpa [negotiateColumns, multilineLines] using this

/-- C10 witness: a colon-free line panics the negotiation; a two-column
block negotiates its flags from the text after the first colon; the
`full` flag is recognized by exact string equality. -/
theorem overviewFmt_colon_behavior_witness :
    negotiateColumns ["Order of fields in overview database.", "nocolon"] = .panic ∧
    negotiateColumns (multilineLines "x" ["Subject:full", "Bytes:"]) =
      .ok (["Article", "Subject", "Bytes"], [("Subject", true), ("Bytes", false)]) ∧
    (("full" == "full") = true ↔ ("full" : String) = "full") :=
  ⟨overviewFmt_colon_behavior.1 "Order of fields in overview database." ["nocolon"]
      ⟨"nocolon", by decide, by decide⟩,
   (overviewFmt_colon_behavior.2.1 "x" ["Subject:full", "Bytes:"] (by decide)).trans
     (by decide),
   overviewFmt_colon_behavior.2.2 "full"⟩

/-- Records decoded before a non-decodable line are delivered unchanged;
the stream then aborts. -/
theorem xoverStream_delivered (headers : List String) (hf : List (String × Bool)) :
    ∀ (good : List String) (bad : String) (rest : List String),
    (∀ l ∈ good, (decodeLine headers hf l).isOk = true) →
    (decodeLine headers hf bad).isOk = false →
    xoverStream headers hf (good ++ bad :: rest) =
      (good.map (fun l => (decodeLine headers hf l).okD []), true) := by
  intro good
  induction good with
  | nil =>
    intro bad rest _ hbad
    cases hb : decodeLine headers hf bad with
    | ok r => rw [hb] at hbad; simp [GoResult.isOk] at hbad
    | err e => simp [xoverStream, hb]
    | panic => simp [xoverStream, hb]
  | cons g gs ih =>
    intro bad rest hgood hbad
    have hg := hgood g (List.mem_cons_self g gs)
    cases hb : decodeLine headers hf g with
    | ok r =>
      have ihr := ih bad rest (fun l hm => hgood l (List.mem_cons_of_mem g hm)) hbad
      simp only [List.cons_append, xoverStream, hb]
      rw [List.append_eq, ihr]
      simp [GoResult.okD, hb]
    | err e => rw [hb] at hg; simp [GoResult.isOk] at hg
    | panic => rw [hb] at hg; simp [GoResult.isOk] at hg

/-- As long as a field remains past the last column, the decode loop must
eventually index `headers` out of range (or panic earlier on a colon-free
full value). -/
theorem decodeFields_overflow (headers : List String) (hf : List (String × Bool)) :
    ∀ (fields : List String) (i : Nat) (m : List (String × String)),
    headers.length < i + fields.length → i ≤ headers.length →
    decodeFields headers hf fields i m = .panic := by
  intro fields
  induction fields with
  | nil => intro i m h1 h2; simp at h1; omega
  | cons v vs ih =>
    intro i m h1 h2
    cases hh : headers[i]? with
    | none => simp [decodeFields, hh]
    | some h =>
      have hi : i < headers.length := by
        by_contra hni
        rw [List.getElem?_eq_none (by omega)] at hh
        exact Option.noConfusion hh
      simp only [decodeFields, hh]
      by_cases hfull : mapLookup hf h = true
      · simp only [if_pos hfull]
        cases hc : (goSplitN2 v ':')[1]? with
        | none => rfl
        | some v2 =>
          have := ih (i + 1) (mimeSet m h v2) (by simp at h1 ⊢; omega) (by omega)
          simpa [hc] using this
      · simp only [if_neg hfull]
        exact ih (i + 1) (mimeSet m h v) (by simp at h1 ⊢; omega) (by omega)

/-- A line whose field count stays within the columns decodes without
panicking, provided every value assigned to a `full` column carries a
colon. -/
theorem decodeFields_ok (headers : List String) (hf : List (String × Bool)) :
    ∀ (fields : List String) (i : Nat) (m : List (String × String)),
    i + fields.length ≤ headers.length →
    (∀ (j : Nat) (v h : String), fields[j]? = some v → headers[i + j]? = some h →
        mapLookup hf h = true → (goSplitN2 v ':').length = 2) →
    (decodeFields headers hf fields i m).isOk = true := by
  intro fields
  induction fields with
  | nil => intro i m _ _; simp [decodeFields, GoResult.isOk]
  | cons v vs ih =>
    intro i m hlen hcolon
    have hi : i < headers.length := by simp at hlen; omega
    obtain ⟨h, hh⟩ : ∃ h, headers[i]? = some h := by
      rw [List.getElem?_eq_getElem hi]; exact ⟨_, rfl⟩
    have hshift : ∀ (j : Nat) (v' h' : String), vs[j]? = some v' →
        headers[i + 1 + j]? = some h' → mapLookup hf h' = true →
        (goSplitN2 v' ':').length = 2 := by
      intro j v' h' hv hh' hfl
      refine hcolon (j + 1) v' h' (by simpa using hv) ?_ hfl
      rw [show i + (j + 1) = i + 1 + j by omega]
      exact hh'
    have htail : i + 1 + vs.length ≤ headers.length := by simp at hlen ⊢; omega
    simp only [decodeFields, hh]
    by_cases hfull : mapLookup hf h = true
    · have hc2 := hcolon 0 v h (by simp) (by simpa using hh) hfull
      obtain ⟨x, y, hxy⟩ := List.length_eq_two.mp hc2
      simp only [if_pos hfull, hxy, List.getElem?_cons_succ, List.getElem?_cons_zero]
      exact ih (i + 1) (mimeSet m h y) htail hshift
    · simp only [if_neg hfull]
      exact ih (i + 1) (mimeSet m h v) htail hshift

/-- C4 counterexample: with the single negotiated column `Article`, the
line `"1\t2"` has one more tab field than columns; decoding panics
instead of dropping the extra field, and the stream aborts — the
following line `"6"` is never delivered.  A line with fewer fields than
columns can also abort: a value for a `full` column that carries no
colon panics on the second part of its two-way split. -/
theorem xover_extra_field_aborts :
    decodeLine ["Article"] [] "1\t2" = .panic ∧
    xoverStream ["Article"] [] ["5", "1\t2", "6"] = ([[("Article", "5")]], true) ∧
    decodeLine ["Article", "Subject", "Bytes"] [("Subject", true)] "1\tx" = .panic :=
  ⟨rfl, rfl, rfl⟩

/-- C4 amended: a line with more tab fields than negotiated columns
panics the decoding goroutine and aborts the stream (it does not drop
extra fields); records already delivered to the channel before the abort
are unaffected; and a line with at most as many fields as columns — all
of whose values for `full` columns carry a colon — decodes without
aborting, leaving trailing columns absent. -/
theorem xover_field_count_behavior :
    (∀ (headers : List String) (hf : List (String × Bool)) (good : List String)
        (bad : String) (rest : List String),
        (∀ l ∈ good, (decodeLine headers hf l).isOk = true) →
        (decodeLine headers hf bad).isOk = false →
        xoverStream headers hf (good ++ bad :: rest) =
          (good.map (fun l => (decodeLine headers hf l).okD []), true)) ∧
    (∀ (headers : List String) (hf : List (String × Bool)) (l : String),
        headers.length < (goSplit l '\t').length →
        decodeLine headers hf l = .panic) ∧
    (∀ (headers : List String) (hf : List (String × Bool)) (l : String),
        (goSplit l '\t').length ≤ headers.length →
        (∀ (j : Nat) (v h : String), (goSplit l '\t')[j]? = some v →
            headers[j]? = some h → mapLookup hf h = true →
            (goSplitN2 v ':').length = 2) →
        (decodeLine headers hf l).isOk = true) := by
  refine ⟨xoverStream_delivered, ?_, ?_⟩
  · intro headers hf l h
    exact decodeFields_overflow headers hf _ 0 [] (by simpa using h) (Nat.zero_le _)
  · intro headers hf l hlen hcolon
    refine decodeFields_ok headers hf _ 0 [] (by simpa using hlen) ?_
    intro j v h hv hh hfl
    exact hcolon j v h hv (by simpa using hh) hfl

/-- C4 witness: one delivered record survives the abort; an extra field
panics; a within-columns line decodes. -/
theorem xover_field_count_behavior_witness :
    xoverStream ["Article"] [] (["7"] ++ "1\t2" :: []) =
      ([[("Article", "7")]], true) ∧
    decodeLine ["Article"] [] "12\t34" = .panic ∧
    (decodeLine ["Article", "Subject"] [] "1\t2").isOk = true := by
  refine ⟨?_, xover_field_count_behavior.2.1 ["Article"] [] "12\t34" (by decide), ?_⟩
  · have := xover_field_count_behavior.1 ["Article"] [] ["7"] "1\t2" []
      (by decide) (by decide)
    simpa using this
  · refine xover_field_count_behavior.2.2 ["Article", "Subject"] [] "1\t2" (by decide) ?_
    intro j v h _ _ hfl
    simp [mapLookup] at hfl

/-- C8: with the negotiated format {Article, Subject:full, Bytes}, the
overview line `"1\tsubj:hello\t100"` decodes to Article "1",
Subject "hello" (the text before the first colon stripped because Subject
is `full`), and Bytes "100". -/
theorem xover_decode_example :
    decodeLine ["Article", "Subject", "Bytes"] [("Subject", true), ("Bytes", false)]
        "1\tsubj:hello\t100" =
      .ok [("Article", "1"), ("Subject", "hello"), ("Bytes", "100")] :=
  rfl

/-- A list of length at least 4 starts with four elements. -/
theorem exists_cons4_of_length {α : Type} :
    ∀ (l : List α), 4 ≤ l.length → ∃ a b c d rest, l = a :: b :: c :: d :: rest
  | a :: b :: c :: d :: rest, _ => ⟨a, b, c, d, rest, rfl⟩
  | [], h => absurd h (by simp)
  | [_], h => absurd h (by simp)
  | [_, _], h => absurd h (by simp)
  | [_, _, _], h => absurd h (by simp)

/-- The `List` loop over a block of well-formed (≥ 4 fields) lines:
lines whose watermarks fail to parse are skipped, the rest are appended
in order. -/
theorem listParseLines_wf :
    ∀ (bl : List String) (rv : List Group),
    (∀ l ∈ bl, 4 ≤ (goSplit l ' ').length) →
    listParseLines rv bl = .ok (rv ++ bl.filterMap lineGroup?) := by
  intro bl
  induction bl with
  | nil => intro rv _; simp [listParseLines]
  | cons l ls ih =>
    intro rv h
    obtain ⟨a, b, c, d, rest, hp⟩ :=
      exists_cons4_of_length (goSplit l ' ') (h l (List.mem_cons_self l ls))
    have htail := fun l' hm => h l' (List.mem_cons_of_mem l hm)
    cases hb : parseInt64 b with
    | some high =>
      cases hc : parseInt64 c with
      | some low =>
        have hline : listParseLine rv l =
            .ok (rv ++ [⟨a, 0, low, high, parsePosting d⟩]) := by
          simp [listParseLine, hp, hb, hc]
        have hlg : lineGroup? l = some ⟨a, 0, low, high, parsePosting d⟩ := by
          simp [lineGroup?, hp, hb, hc]
        simp only [listParseLines, hline]
        rw [ih _ htail]
        simp [hlg, List.append_assoc]
      | none =>
        have hline : listParseLine rv l = .ok rv := by
          simp [listParseLine, hp, hb, hc]
        have hlg : lineGroup? l = none := by simp [lineGroup?, hp, hb, hc]
        simp only [listParseLines, hline]
        rw [ih _ htail]
        simp [hlg]
    | none =>
      have hline : listParseLine rv l = .ok rv := by
        simp [listParseLine, hp, hb]
      have hlg : lineGroup? l = none := by simp [lineGroup?, hp, hb]
      simp only [listParseLines, hline]
      rw [ih _ htail]
      simp [hlg]

/-- C6 counterexample: the block line `"a 1 2"` has both watermarks
parseable but only 3 fields, so indexing `parts[3]` panics and the whole
listing aborts — the valid group already collected from the first line
is lost, contradicting "malformed lines never abort the whole
listing". -/
theorem list_malformed_line_aborts :
    ListCmd ⟨215, "list follows"⟩ ["grp 5 1 y", "a 1 2"] = .panic :=
  rfl

/-- C6 amended: restricted to blocks whose lines all carry at least 4
space-separated fields, `List` skips (without error) every line whose
high or low watermark fails integer parsing and returns the groups of
all other lines in order; a line with fewer than 4 fields can instead
abort the listing with an out-of-range panic. -/
theorem list_amended :
    ∀ (resp : StatusLine) (blockLines : List String),
    codeOK 215 resp.code = true →
    (∀ l ∈ blockLines, 4 ≤ (goSplit l ' ').length) →
    ListCmd resp blockLines = .ok (blockLines.filterMap lineGroup?) := by
  intro resp bl h215 h4
  simp only [ListCmd, if_pos h215]
  simpa using listParseLines_wf bl [] h4

/-- C6 witness: one parseable line kept, one line with bad watermarks
skipped. -/
theorem list_amended_witness :
    ListCmd ⟨215, "list of newsgroups follows"⟩ ["grp 5 1 y", "bad x y z"] =
      .ok [⟨"grp", 0, 1, 5, .permitted⟩] :=
  (list_amended ⟨215, "list of newsgroups follows"⟩ ["grp 5 1 y", "bad x y z"]
    (by decide) (by decide)).trans (by decide)

/-- C9 counterexample: the claim asserts every line with fewer than 4
fields panics, but `"a b c"` (3 fields, non-numeric watermarks) is
silently skipped: the watermark parses fail before `parts[3]` is ever
indexed. -/
theorem list_three_field_skip :
    listParseLine [] "a b c" = .ok [] ∧ listParseLines [] ["a b c"] = .ok [] :=
  ⟨rfl, rfl⟩

/-- C9 amended: a `LIST` line with at most 2 space-separated fields
always panics (`parts[1]` or `parts[2]` is out of range, reaching the
`none` branch of the embedded indexing); a 3-field line panics exactly
when both watermarks parse, since only then is `parts[3]` indexed. -/
theorem list_short_line_panics :
    (∀ (rv : List Group) (l : String), (goSplit l ' ').length ≤ 2 →
        listParseLine rv l = .panic) ∧
    (∀ (rv : List Group) (l a b c : String), goSplit l ' ' = [a, b, c] →
        (listParseLine rv l = .panic ↔
          (parseInt64 b).isSome = true ∧ (parseInt64 c).isSome = true)) := by
  refine ⟨?_, ?_⟩
  · intro rv l hlen
    cases hp : goSplit l ' ' with
    | nil => simp [listParseLine, hp]
    | cons a t =>
      cases t with
      | nil => simp [listParseLine, hp]
      | cons b t2 =>
        cases t2 with
        | nil => simp [listParseLine, hp]
        | cons c t3 => rw [hp] at hlen; simp at hlen
  · intro rv l a b c hp
    cases hb : parseInt64 b with
    | some high =>
      cases hc : parseInt64 c with
      | some low => simp [listParseLine, hp, hb, hc]
      | none => simp [listParseLine, hp, hb, hc]
    | none =>
      cases hc : parseInt64 c with
      | some low => simp [listParseLine, hp, hb, hc]
      | none => simp [listParseLine, hp, hb, hc]

/-- C9 witness: a name-only line panics; a 3-field line with numeric
watermarks panics at `parts[3]`. -/
theorem list_short_line_panics_witness :
    listParseLine [] "alt.test" = .panic ∧ listParseLine [] "x 1 2" = .panic :=
  ⟨list_short_line_panics.1 [] "alt.test" (by decide),
   (list_short_line_panics.2 [] "x 1 2" "x" "1" "2" (by decide)).mpr
     ⟨by decide, by decide⟩⟩

end GoNNTP
